import Mathlib

/-!
Shallow embedding of `conda_inject/__init__.py` (koesterlab/conda-inject).

The Python module validates a declarative conda environment spec, augments it
with an interpreter pin and caller constraints, derives a content-addressed
environment name (SHA-256 of the JSON serialization), decides whether to shell
out to create the environment, and splices/removes the environment's paths
into the process-global `sys.path` and `PATH`.

Pure pieces (regex parsing, dict handling, JSON serialization, SHA-256,
name derivation, path-string surgery) are translated directly; subprocess
calls are represented by a command trace, and the mutable process state
(`sys.path`, `PATH`, the set of on-disk environments) by an explicit record.
-/

namespace CondaInject

/-! ### Package-spec parsing (`package_spec_pattern`, line 15)

The Python regex is `(?P<package>[^=><\s]+)(\s*)(?P<constraint>.+)?`, used with
`re.Pattern.match` (anchored at the start, not the end). The match succeeds
iff the string starts with at least one character outside `=`, `<`, `>` and
whitespace; the `package` group is the maximal such run. Only the `package`
group is ever read by the module. -/

/-- ASCII whitespace, matching the characters of the regex class `\s` that can
occur in package specifiers. -/
def isPySpace (c : Char) : Bool :=
  c == ' ' || c == '\t' || c == '\n' || c == '\x0b' || c == '\x0c' || c == '\r'

/-- A character allowed inside the `package` group of `package_spec_pattern`:
anything except `=`, `<`, `>` and whitespace. -/
def goodChar (c : Char) : Bool :=
  !(c == '=' || c == '<' || c == '>' || isPySpace c)

/-- `package_spec_pattern.match(s)` reduced to the only thing the module uses:
the `package` group on success, `none` when the regex does not match.
The group is the maximal leading run of characters allowed by `goodChar`;
the regex fails exactly when that run is empty. -/
def parsePackageName (s : String) : Option String :=
  match s.data.takeWhile goodChar with
  | [] => none
  | cs => some (String.mk cs)

/-! ### Error taxonomy

All failures in the Python module are `ValueError` (or a subprocess
`CalledProcessError`); they are distinguished by their message. -/

/-- The distinct failure modes of the module, one constructor per distinct
`raise` site / subprocess failure. -/
inductive CIError where
  /-- `"Missing 'channels' in environment."` (line 200) -/
  | missingChannels
  /-- `"Missing 'dependencies' in environment."` (line 202) -/
  | missingDependencies
  /-- `"Invalid package spec. ..."` (lines 222-225) -/
  | invalidPackageSpec
  /-- `"The list of packages contains <name>. ..."` (lines 215-220) -/
  | reservedPackage (name : String)
  /-- `sp.run(..., check=True)` failing in `InjectedEnvironment.remove`. -/
  | environmentRemovalFailed
  deriving DecidableEq

/-! ### Environment specs as ordered dictionaries

`inject_env` receives a Python `dict` mapping `"channels"` and
`"dependencies"` to lists of strings. Python dicts preserve insertion order
(which `json.dumps` serializes in), so the embedding is an association list. -/

/-- A Python `Dict[str, List[str]]`, with insertion order. -/
abbrev SpecDict := List (String × List String)

/-- Dictionary lookup (first occurrence of the key). -/
def lookupKey (d : SpecDict) (k : String) : Option (List String) :=
  match d with
  | [] => none
  | (k', v) :: rest => if k' = k then some v else lookupKey rest k

/-- `env["dependencies"].append(...)` / `.extend(...)`: rewrite the value at
the first occurrence of a key with `f`. -/
def updateKey (d : SpecDict) (k : String) (f : List String → List String) :
    SpecDict :=
  match d with
  | [] => []
  | (k', v) :: rest =>
      if k' = k then (k', f v) :: rest else (k', v) :: updateKey rest k f

/-- The list a `with_constraints: Optional[List[str]]` argument stands for. -/
def wcList (wc : Option (List String)) : List String :=
  wc.getD []

/-! ### Validation (`_check_packages`, `_check_env`, `_get_invalid_packages`) -/

/-- `_check_packages(packages, invalid_packages)` (lines 206-225): walk the
specs in order; a non-matching spec raises the malformed error, a parsed name
in the reserved set raises the reserved-package error. -/
def _check_packages (invalid : List String) : List String → Except CIError Unit
  | [] => .ok ()
  | p :: ps =>
      match parsePackageName p with
      | some n =>
          if n ∈ invalid then .error (.reservedPackage n)
          else _check_packages invalid ps
      | none => .error .invalidPackageSpec

/-- `_get_invalid_packages(constraints)` (lines 228-237): the reserved set
starts at `{"python"}`; the constraints themselves are first checked against
`{"python"}`, then every constraint's parsed package name is added. -/
def _get_invalid_packages (wc : Option (List String)) :
    Except CIError (List String) :=
  match wc with
  | none => .ok ["python"]
  | some cs =>
      match _check_packages ["python"] cs with
      | .error e => .error e
      | .ok _ => .ok ("python" :: cs.filterMap parsePackageName)

/-- `_check_env(env, invalid_packages)` (lines 195-203): require the
`channels` and `dependencies` keys, then check the dependency specs. -/
def _check_env (env : SpecDict) (invalid : List String) :
    Except CIError Unit :=
  match lookupKey env "channels" with
  | none => .error .missingChannels
  | some _ =>
      match lookupKey env "dependencies" with
      | none => .error .missingDependencies
      | some deps => _check_packages invalid deps

/-! ### Augmentation (`_insert_constraints`, lines 167-173) -/

/-- The exact interpreter pin `f"python =={major}.{minor}"` built from
`sys.version_info` (the version is a parameter of the embedding). -/
def pythonPin (ver : Nat × Nat) : String :=
  "python ==" ++ toString ver.1 ++ "." ++ toString ver.2

/-- `_insert_constraints(env, constraints)`: append the interpreter pin and
then the caller constraints (in order) to `env["dependencies"]`, in place.
The callers run `_check_env` first, so the key is present. -/
def _insert_constraints (env : SpecDict) (wc : Option (List String))
    (ver : Nat × Nat) : SpecDict :=
  updateKey env "dependencies" (fun deps => deps ++ pythonPin ver :: wcList wc)

/-! ### JSON serialization (`json.dumps(env)`, line 178)

`_get_env_name` hashes `json.dumps(env)` with the default options: insertion
key order (no `sort_keys`), separators `", "` and `": "`, `ensure_ascii`
escaping (everything outside `0x20`-`0x7e` as `\uXXXX`, with the short
escapes for the usual control characters). -/

/-- A lowercase hexadecimal digit. -/
def hexDigit (n : Nat) : Char :=
  if n < 10 then Char.ofNat (48 + n) else Char.ofNat (87 + n)

/-- A `\uXXXX` escape. -/
def uEscape4 (n : Nat) : List Char :=
  ['\\', 'u', hexDigit ((n >>> 12) &&& 15), hexDigit ((n >>> 8) &&& 15),
   hexDigit ((n >>> 4) &&& 15), hexDigit (n &&& 15)]

/-- How `json.dumps` renders one character inside a string literal
(`ensure_ascii=True`, the default). -/
def jsonEscapeChar (c : Char) : List Char :=
  let n := c.toNat
  if n = 34 then ['\\', '"']
  else if n = 92 then ['\\', '\\']
  else if n = 8 then ['\\', 'b']
  else if n = 9 then ['\\', 't']
  else if n = 10 then ['\\', 'n']
  else if n = 12 then ['\\', 'f']
  else if n = 13 then ['\\', 'r']
  else if n < 32 then uEscape4 n
  else if n < 127 then [c]
  else if n < 65536 then uEscape4 n
  else uEscape4 (55296 + ((n - 65536) >>> 10)) ++ uEscape4 (56320 + ((n - 65536) &&& 1023))

/-- A JSON string literal. -/
def jsonString (s : String) : String :=
  String.mk ('"' :: (s.data.flatMap jsonEscapeChar ++ ['"']))

/-- Comma-space separated concatenation, as in `json.dumps`'s default
item separator. -/
def joinComma : List String → String
  | [] => ""
  | [x] => x
  | x :: xs => x ++ ", " ++ joinComma xs

/-- A JSON array of strings. -/
def jsonListStr (xs : List String) : String :=
  "[" ++ joinComma (xs.map jsonString) ++ "]"

/-- `json.dumps(env)` for a `Dict[str, List[str]]`: keys in insertion order,
default separators. -/
def jsonDumps (env : SpecDict) : String :=
  "\x7b" ++ joinComma (env.map fun kv => jsonString kv.1 ++ ": " ++ jsonListStr kv.2) ++ "\x7d"

/-- UTF-8 encoding of one character (`str.encode("utf-8")`). -/
def utf8Char (c : Char) : List Nat :=
  let n := c.toNat
  if n < 128 then [n]
  else if n < 2048 then [192 + (n >>> 6), 128 + (n &&& 63)]
  else if n < 65536 then
    [224 + (n >>> 12), 128 + ((n >>> 6) &&& 63), 128 + (n &&& 63)]
  else
    [240 + (n >>> 18), 128 + ((n >>> 12) &&& 63), 128 + ((n >>> 6) &&& 63), 128 + (n &&& 63)]

/-- UTF-8 encoding of a string, as a byte list. -/
def utf8 (s : String) : List Nat :=
  s.data.flatMap utf8Char

/-! ### SHA-256 (`hashlib.sha256`, lines 177-179)

Machine words are `Nat` taken modulo `2 ^ 32`. -/

/-- Truncate to a 32-bit word. -/
def w32 (n : Nat) : Nat := n % 4294967296

/-- 32-bit right rotation (of a value below `2 ^ 32`). -/
def rotr32 (k n : Nat) : Nat := w32 ((n >>> k) ||| (n <<< (32 - k)))

/-- 32-bit bitwise complement (of a value below `2 ^ 32`). -/
def notW (n : Nat) : Nat := 4294967295 ^^^ n

/-- SHA-256 `Σ0`. -/
def bigSigma0 (x : Nat) : Nat := rotr32 2 x ^^^ rotr32 13 x ^^^ rotr32 22 x

/-- SHA-256 `Σ1`. -/
def bigSigma1 (x : Nat) : Nat := rotr32 6 x ^^^ rotr32 11 x ^^^ rotr32 25 x

/-- SHA-256 `σ0`. -/
def smallSigma0 (x : Nat) : Nat := rotr32 7 x ^^^ rotr32 18 x ^^^ (x >>> 3)

/-- SHA-256 `σ1`. -/
def smallSigma1 (x : Nat) : Nat := rotr32 17 x ^^^ rotr32 19 x ^^^ (x >>> 10)

/-- SHA-256 `Ch`. -/
def chF (e f g : Nat) : Nat := (e &&& f) ^^^ (notW e &&& g)

/-- SHA-256 `Maj`. -/
def majF (a b c : Nat) : Nat := (a &&& b) ^^^ (a &&& c) ^^^ (b &&& c)

/-- The 64 SHA-256 round constants (in decimal). -/
def shaK : List Nat :=
  [1116352408, 1899447441, 3049323471, 3921009573, 961987163,
   1508970993, 2453635748, 2870763221, 3624381080, 310598401,
   607225278, 1426881987, 1925078388, 2162078206, 2614888103,
   3248222580, 3835390401, 4022224774, 264347078, 604807628,
   770255983, 1249150122, 1555081692, 1996064986, 2554220882,
   2821834349, 2952996808, 3210313671, 3336571891, 3584528711,
   113926993, 338241895, 666307205, 773529912, 1294757372,
   1396182291, 1695183700, 1986661051, 2177026350, 2456956037,
   2730485921, 2820302411, 3259730800, 3345764771, 3516065817,
   3600352804, 4094571909, 275423344, 430227734, 506948616,
   659060556, 883997877, 958139571, 1322822218, 1537002063,
   1747873779, 1955562222, 2024104815, 2227730452, 2361852424,
   2428436474, 2756734187, 3204031479, 3329325298]

/-- The eight 32-bit words of a SHA-256 state. -/
structure Sha8 where
  s0 : Nat
  s1 : Nat
  s2 : Nat
  s3 : Nat
  s4 : Nat
  s5 : Nat
  s6 : Nat
  s7 : Nat
  deriving DecidableEq

/-- The SHA-256 initial hash value (in decimal). -/
def shaInit : Sha8 :=
  ⟨1779033703, 3144134277, 1013904242, 2773480762,
   1359893119, 2600822924, 528734635, 1541459225⟩

/-- SHA-256 padding: `0x80`, zeros to 56 mod 64, then the 64-bit big-endian
bit length. -/
def padMessage (msg : List Nat) : List Nat :=
  let len := msg.length
  let zeros := (119 - len % 64) % 64
  let bitLen := 8 * len
  msg ++ 128 :: (List.replicate zeros 0 ++
    [(bitLen >>> 56) &&& 255, (bitLen >>> 48) &&& 255, (bitLen >>> 40) &&& 255,
     (bitLen >>> 32) &&& 255, (bitLen >>> 24) &&& 255, (bitLen >>> 16) &&& 255,
     (bitLen >>> 8) &&& 255, bitLen &&& 255])

/-- Big-endian grouping of bytes into 32-bit words. -/
def bytesToWords : List Nat → List Nat
  | a :: b :: c :: d :: rest =>
      ((a <<< 24) + (b <<< 16) + (c <<< 8) + d) :: bytesToWords rest
  | _ => []

/-- Split a word list into 16-word blocks (the first argument is fuel, at
least the list's length). -/
def chunk16 : Nat → List Nat → List (List Nat)
  | 0, _ => []
  | _ + 1, [] => []
  | f + 1, ws => ws.take 16 :: chunk16 f (ws.drop 16)

/-- Extend a 16-word block to the 64-word message schedule (each step appends
one word). -/
def extendSchedule : Nat → List Nat → List Nat
  | 0, ws => ws
  | n + 1, ws =>
      let L := ws.length
      extendSchedule n (ws ++
        [w32 (smallSigma1 (ws.getD (L - 2) 0) + ws.getD (L - 7) 0 +
              smallSigma0 (ws.getD (L - 15) 0) + ws.getD (L - 16) 0)])

/-- One SHA-256 compression round; the pair is `(scheduleWord, roundConstant)`. -/
def roundStep (st : Sha8) (wk : Nat × Nat) : Sha8 :=
  let t1 := w32 (st.s7 + bigSigma1 st.s4 + chF st.s4 st.s5 st.s6 + wk.2 + wk.1)
  let t2 := w32 (bigSigma0 st.s0 + majF st.s0 st.s1 st.s2)
  ⟨w32 (t1 + t2), st.s0, st.s1, st.s2, w32 (st.s3 + t1), st.s4, st.s5, st.s6⟩

/-- Compress one 16-word block into the running state. -/
def compressBlock (st : Sha8) (block : List Nat) : Sha8 :=
  let w := extendSchedule 48 block
  let r := (w.zip shaK).foldl roundStep st
  ⟨w32 (st.s0 + r.s0), w32 (st.s1 + r.s1), w32 (st.s2 + r.s2), w32 (st.s3 + r.s3),
   w32 (st.s4 + r.s4), w32 (st.s5 + r.s5), w32 (st.s6 + r.s6), w32 (st.s7 + r.s7)⟩

/-- SHA-256 of a byte list. -/
def sha256 (msg : List Nat) : Sha8 :=
  let ws := bytesToWords (padMessage msg)
  (chunk16 ws.length ws).foldl compressBlock shaInit

/-- A 32-bit word as 8 lowercase hex digits. -/
def toHex8 (n : Nat) : String :=
  String.mk [hexDigit ((n >>> 28) &&& 15), hexDigit ((n >>> 24) &&& 15),
    hexDigit ((n >>> 20) &&& 15), hexDigit ((n >>> 16) &&& 15),
    hexDigit ((n >>> 12) &&& 15), hexDigit ((n >>> 8) &&& 15),
    hexDigit ((n >>> 4) &&& 15), hexDigit (n &&& 15)]

/-- `hashlib.sha256(bytes).hexdigest()`. -/
def sha256hex (msg : List Nat) : String :=
  let d := sha256 msg
  toHex8 d.s0 ++ toHex8 d.s1 ++ toHex8 d.s2 ++ toHex8 d.s3 ++
  toHex8 d.s4 ++ toHex8 d.s5 ++ toHex8 d.s6 ++ toHex8 d.s7

/-- `_get_env_name(env)` (lines 176-180): the fixed prefix, then the hex
SHA-256 digest of the UTF-8 bytes of `json.dumps(env)`, then `"_"`. -/
def _get_env_name (env : SpecDict) : String :=
  "conda-inject-" ++ sha256hex (utf8 (jsonDumps env)) ++ "_"

/-! ### Environment listing (`_get_envs`, lines 183-192)

The subprocess returns a JSON `envs` array of install paths; the mapping's
keys are the paths' basenames. The embedding takes the listed paths as a
parameter. -/

/-- `os.path.basename`: everything after the last `/`. -/
def basename (p : String) : String :=
  String.mk ((p.data.reverse.takeWhile (fun c => !(c == '/'))).reverse)

/-- The keys of the mapping `_get_envs` returns for a listed path set. -/
def envNames (paths : List String) : List String :=
  paths.map basename

/-- A `_get_envs` lookup: the dict comprehension keeps the last path with a
given basename. -/
def envPathFor (paths : List String) (name : String) : Option String :=
  match paths.reverse.find? (fun p => basename p == name) with
  | some p => some p
  | none => none

/-! ### Subprocess command trace -/

/-- The package-manager subprocess invocations, abstracted to the data that
determines them (`_get_envs`, `_create_env`, `InjectedEnvironment.remove`). -/
inductive Cmd where
  /-- `[pm, "env", "list", "--json"]` -/
  | envList
  /-- `[pm, "env", "create", "--name", name, "-f", file]` where the file holds
  the serialized spec. -/
  | envCreate (name : String) (spec : SpecDict)
  /-- `[pm, "env", "remove", "-n", name, "-y"]` -/
  | envRemove (name : String)
  deriving DecidableEq

/-- What a successful `inject_env` run determines before the handle is built:
the derived environment name and whether the creation subprocess ran. -/
structure InjectOutcome where
  envName : String
  created : Bool
  deriving DecidableEq

/-- `inject_env(env, with_constraints, package_manager)` (lines 110-135), up
to the construction of the `InjectedEnvironment` handle: validation, in-place
augmentation, name derivation, the listing query, and the conditional
creation. Returns the commands run, the caller's mapping as the call leaves
it, and the result. `paths` is what the listing subprocess reports. -/
def inject_env_core (env : SpecDict) (wc : Option (List String))
    (ver : Nat × Nat) (paths : List String) :
    List Cmd × SpecDict × Except CIError InjectOutcome :=
  match _get_invalid_packages wc with
  | .error e => ([], env, .error e)
  | .ok invalid =>
      match _check_env env invalid with
      | .error e => ([], env, .error e)
      | .ok _ =>
          let env' := _insert_constraints env wc ver
          let name := _get_env_name env'
          if name ∈ envNames paths then
            ([Cmd.envList], env', .ok ⟨name, false⟩)
          else
            ([Cmd.envList, Cmd.envCreate name env'], env', .ok ⟨name, true⟩)

/-- Whether a run's result is a success. -/
def isOkResult (r : List Cmd × SpecDict × Except CIError InjectOutcome) : Bool :=
  match r.2.2 with
  | .ok _ => true
  | .error _ => false

/-- The environment name of a successful run (`""` on failure). -/
def envNameOf (r : List Cmd × SpecDict × Except CIError InjectOutcome) : String :=
  match r.2.2 with
  | .ok o => o.envName
  | .error _ => ""

/-- The created flag of a successful run (`false` on failure). -/
def createdOf (r : List Cmd × SpecDict × Except CIError InjectOutcome) : Bool :=
  match r.2.2 with
  | .ok o => o.created
  | .error _ => false

/-! ### Process-global path state (`InjectedEnvironment`, lines 35-85)

The mutable state a handle touches: `sys.path` (a list), `os.environ["PATH"]`
(a string), and — through the removal subprocess — the set of environments on
disk. -/

/-- The process-global state the handle's methods read and write. -/
structure ProcState where
  sysPath : List String
  pathVar : String
  envsOnDisk : List String
  deriving DecidableEq

/-- An `InjectedEnvironment`: its name and its `env.path` from the listing. -/
structure Handle where
  name : String
  envPath : String
  deriving DecidableEq

/-- `_get_syspath_injection` (lines 80-85). -/
def syspathInjection (h : Handle) (ver : Nat × Nat) : String :=
  h.envPath ++ "/lib/python" ++ toString ver.1 ++ "." ++ toString ver.2 ++ "/site-packages"

/-- `_get_path_injection` (lines 77-78). -/
def pathInjection (h : Handle) : String :=
  ":" ++ h.envPath ++ "/bin"

/-- `list.remove` wrapped in `try/except ValueError` (lines 58-62): drop the
first occurrence, do nothing when absent. -/
def pyListRemove (xs : List String) (x : String) : List String :=
  match xs with
  | [] => []
  | y :: ys => if y = x then ys else y :: pyListRemove ys x

/-- `str.replace(pat, "")` on character lists, with fuel (the fuel is at
least the list length at every call): scan left to right, dropping each
non-overlapping occurrence of `pat`. -/
def removeAllFuel (pat : List Char) : Nat → List Char → List Char
  | _, [] => []
  | 0, s => s
  | f + 1, c :: rest =>
      if pat ≠ [] ∧ pat <+: c :: rest then
        removeAllFuel pat f ((c :: rest).drop pat.length)
      else
        c :: removeAllFuel pat f rest

/-- `str.replace(pat, "")`: remove every non-overlapping occurrence of `pat`,
scanning left to right. -/
def removeAll (s pat : List Char) : List Char :=
  removeAllFuel pat s.length s

/-- `str.replace(pat, "")` on strings. -/
def removeAllStr (s pat : String) : String :=
  String.mk (removeAll s.data pat.data)

/-- `_inject_path` (lines 71-75): append the site-packages entry to
`sys.path` and the `":<path>/bin"` suffix to `PATH`. -/
def _inject_path (h : Handle) (ver : Nat × Nat) (s : ProcState) : ProcState :=
  { s with
    sysPath := s.sysPath ++ [syspathInjection h ver],
    pathVar := s.pathVar ++ pathInjection h }

/-- `deactivate` (lines 56-63): drop the first occurrence of the
site-packages entry from `sys.path` (tolerating absence) and string-replace
the `PATH` injection with the empty string. -/
def deactivate (h : Handle) (ver : Nat × Nat) (s : ProcState) : ProcState :=
  { s with
    sysPath := pyListRemove s.sysPath (syspathInjection h ver),
    pathVar := removeAllStr s.pathVar (pathInjection h) }

/-- `__exit__` (lines 68-69): scope exit calls `deactivate`, unconditionally
(also on an exception leaving the scope). -/
def scopeExit (h : Handle) (ver : Nat × Nat) (s : ProcState) : ProcState :=
  deactivate h ver s

/-- `InjectedEnvironment.remove` (lines 46-54): run the removal subprocess
with `check=True`, then `deactivate`. `exitOk` is the subprocess's success;
when it exits non-zero the `CalledProcessError` propagates at once, so the
state is returned untouched. -/
def removeEnv (h : Handle) (ver : Nat × Nat) (exitOk : Bool) (s : ProcState) :
    List Cmd × Except CIError Unit × ProcState :=
  if exitOk then
    ([Cmd.envRemove h.name], .ok (),
     deactivate h ver { s with envsOnDisk := s.envsOnDisk.erase h.name })
  else
    ([Cmd.envRemove h.name], .error .environmentRemovalFailed, s)

/-- Decidable equality of `Except` results (for concrete evaluation). -/
instance {ε α : Type} [DecidableEq ε] [DecidableEq α] :
    DecidableEq (Except ε α) := fun x y =>
  match x, y with
  | .ok a, .ok b =>
      if h : a = b then .isTrue (by rw [h]) else .isFalse (fun hc => h (Except.ok.inj hc))
  | .error a, .error b =>
      if h : a = b then .isTrue (by rw [h]) else .isFalse (fun hc => h (Except.error.inj hc))
  | .ok _, .error _ => .isFalse (fun hc => Except.noConfusion hc)
  | .error _, .ok _ => .isFalse (fun hc => Except.noConfusion hc)

/-- The entries of a `PATH` string, split on `:` (for reading the claim's
"equal as sets of entries"). -/
def pathEntries (s : String) : List String :=
  (s.data.foldr
    (fun c acc => if c = ':' then [] :: acc else (c :: acc.headD []) :: acc.tail)
    [[]]).map String.mk

/-! ## Lemmas about the embedded operations -/

theorem removeAllFuel_nil (pat : List Char) (f : Nat) : removeAllFuel pat f [] = [] := by
  cases f <;> rfl

theorem removeAllFuel_cons (pat : List Char) (f : Nat) (c : Char) (rest : List Char) :
    removeAllFuel pat (f + 1) (c :: rest) =
      if pat ≠ [] ∧ pat <+: c :: rest then
        removeAllFuel pat f ((c :: rest).drop pat.length)
      else
        c :: removeAllFuel pat f rest := rfl

theorem removeAllFuel_irrel (pat : List Char) :
    ∀ (f₁ f₂ : Nat) (s : List Char), s.length ≤ f₁ → s.length ≤ f₂ →
      removeAllFuel pat f₁ s = removeAllFuel pat f₂ s := by
  intro f₁
  induction f₁ with
  | zero =>
      intro f₂ s h1 _
      have hs : s = [] := List.length_eq_zero.mp (Nat.le_zero.mp h1)
      subst hs
      rw [removeAllFuel_nil, removeAllFuel_nil]
  | succ g ih =>
      intro f₂ s h1 h2
      cases s with
      | nil => rw [removeAllFuel_nil, removeAllFuel_nil]
      | cons c rest =>
          cases f₂ with
          | zero => simp at h2
          | succ k =>
              rw [removeAllFuel_cons, removeAllFuel_cons]
              by_cases hg : pat ≠ [] ∧ pat <+: c :: rest
              · rw [if_pos hg, if_pos hg]
                have hL : 0 < pat.length := List.length_pos.mpr hg.1
                have hd : ((c :: rest).drop pat.length).length ≤ g := by
                  simp only [List.length_drop, List.length_cons]
                  simp only [List.length_cons] at h1
                  omega
                have hd' : ((c :: rest).drop pat.length).length ≤ k := by
                  simp only [List.length_drop, List.length_cons]
                  simp only [List.length_cons] at h2
                  omega
                exact ih k _ hd hd'
              · rw [if_neg hg, if_neg hg]
                have hr : rest.length ≤ g := by
                  simp only [List.length_cons] at h1; omega
                have hr' : rest.length ≤ k := by
                  simp only [List.length_cons] at h2; omega
                exact congrArg (c :: ·) (ih k rest hr hr')

theorem removeAll_nil (pat : List Char) : removeAll [] pat = [] := rfl

theorem removeAll_cons_pos {pat : List Char} {c : Char} {rest : List Char}
    (h : pat ≠ [] ∧ pat <+: c :: rest) :
    removeAll (c :: rest) pat = removeAll ((c :: rest).drop pat.length) pat := by
  unfold removeAll
  rw [show (c :: rest).length = rest.length + 1 from rfl, removeAllFuel_cons, if_pos h]
  have hL : 0 < pat.length := List.length_pos.mpr h.1
  exact removeAllFuel_irrel pat rest.length _ _
    (by rw [List.length_drop]; simp only [List.length_cons]; omega) (le_refl _)

theorem removeAll_cons_neg {pat : List Char} {c : Char} {rest : List Char}
    (h : ¬(pat ≠ [] ∧ pat <+: c :: rest)) :
    removeAll (c :: rest) pat = c :: removeAll rest pat := by
  unfold removeAll
  rw [show (c :: rest).length = rest.length + 1 from rfl, removeAllFuel_cons, if_neg h]

/-- `str.replace(pat, "")` is the identity when `pat` does not occur. -/
theorem removeAll_no_occurrence {pat : List Char} :
    ∀ {s : List Char}, ¬ pat <:+: s → removeAll s pat = s := by
  intro s
  induction s with
  | nil => intro _; exact removeAll_nil pat
  | cons c rest ih =>
      intro hs
      have hg : ¬ (pat ≠ [] ∧ pat <+: c :: rest) := by
        rintro ⟨_, hp⟩
        exact hs hp.isInfix
      rw [removeAll_cons_neg hg, ih (fun hinf => hs (List.infix_cons hinf))]

theorem removeAll_self {pat : List Char} (hne : pat ≠ []) :
    removeAll pat pat = [] := by
  cases hp : pat with
  | nil => exact absurd hp hne
  | cons c rest =>
      rw [removeAll_cons_pos ⟨by rw [← hp]; exact hne, by rw [← hp]⟩]
      rw [← hp, List.drop_length, removeAll_nil]

/-- Removing `pat` from `s ++ pat` gives back `s`, provided `pat` does not
occur in `s` and has no self-overlap (no nonempty proper suffix of `pat` is a
prefix of `pat`). -/
theorem removeAll_append_self {pat : List Char} (hne : pat ≠ [])
    (hso : ∀ j, 0 < j → j < pat.length →
      pat.drop j ≠ pat.take (pat.length - j)) :
    ∀ {s : List Char}, ¬ pat <:+: s → removeAll (s ++ pat) pat = s := by
  intro s
  induction s with
  | nil => intro _; rw [List.nil_append]; exact removeAll_self hne
  | cons c s' ih =>
      intro hs
      have hs' : ¬ pat <:+: s' := fun hinf => hs (List.infix_cons hinf)
      rw [List.cons_append]
      by_cases hg : pat ≠ [] ∧ pat <+: c :: (s' ++ pat)
      · exfalso
        obtain ⟨-, hp⟩ := hg
        rcases Nat.lt_or_ge (c :: s').length pat.length with hlt | hge
        · obtain ⟨t, ht⟩ := hp
          have hts : pat ++ t = (c :: s') ++ pat := by
            rw [ht]; rfl
          have hdrop : pat.drop (c :: s').length ++ t = pat := by
            have h2 := congrArg (List.drop (c :: s').length) hts
            rwa [List.drop_append_of_le_length (le_of_lt hlt), List.drop_left] at h2
          have hpre : pat.drop (c :: s').length <+: pat := ⟨t, hdrop⟩
          have heq := List.prefix_iff_eq_take.mp hpre
          rw [List.length_drop] at heq
          exact hso (c :: s').length (by simp) hlt heq
        · have hpre : pat <+: c :: s' := by
            have h1 := List.prefix_iff_eq_take.mp hp
            rw [show c :: (s' ++ pat) = (c :: s') ++ pat from rfl,
                List.take_append_of_le_length hge] at h1
            rw [h1]
            exact List.take_prefix _ _
          exact hs hpre.isInfix
      · rw [removeAll_cons_neg hg, ih hs']

/-- A pattern of the form `':' :: q` with no `':'` in `q` has no
self-overlap. -/
theorem colon_pattern_no_overlap {q : List Char} (hq : ':' ∉ q) :
    ∀ j, 0 < j → j < (':' :: q).length →
      (':' :: q).drop j ≠ (':' :: q).take ((':' :: q).length - j) := by
  intro j hj hjL heq
  obtain ⟨j', rfl⟩ : ∃ j', j = j' + 1 := ⟨j - 1, by omega⟩
  simp only [List.length_cons] at hjL
  have hj' : j' < q.length := by omega
  rw [show (':' :: q).drop (j' + 1) = q.drop j' from rfl] at heq
  obtain ⟨m, hm⟩ : ∃ m, (':' :: q).length - (j' + 1) = m + 1 := by
    refine ⟨q.length - j' - 1, ?_⟩
    simp only [List.length_cons]
    omega
  rw [hm, show (':' :: q).take (m + 1) = ':' :: q.take m from rfl] at heq
  have hmem : ':' ∈ q.drop j' := by
    rw [heq]; exact List.mem_cons_self ':' (q.take m)
  exact hq (List.mem_of_mem_drop hmem)

theorem pathInjection_data (h : Handle) :
    (pathInjection h).data = ':' :: (h.envPath.data ++ ['/', 'b', 'i', 'n']) := by
  show ((":" ++ h.envPath) ++ "/bin").data = _
  rw [String.data_append, String.data_append]
  rfl

/-- The `PATH` injection string has no self-overlap when the environment path
contains no `':'`. -/
theorem pathInjection_no_overlap {h : Handle} (hc : ':' ∉ h.envPath.data) :
    ∀ j, 0 < j → j < (pathInjection h).data.length →
      (pathInjection h).data.drop j ≠
        (pathInjection h).data.take ((pathInjection h).data.length - j) := by
  rw [pathInjection_data]
  refine colon_pattern_no_overlap ?_
  intro hmem
  rcases List.mem_append.mp hmem with hmem' | hmem'
  · exact hc hmem'
  · simp at hmem'

theorem pyListRemove_append_singleton_perm (xs : List String) (x : String) :
    List.Perm (pyListRemove (xs ++ [x]) x) xs := by
  induction xs with
  | nil => simp [pyListRemove]
  | cons y ys ih =>
      by_cases hy : y = x
      · subst hy
        show List.Perm (if y = y then ys ++ [y] else _) (y :: ys)
        rw [if_pos rfl]
        exact List.perm_append_singleton y ys
      · show List.Perm (if y = x then _ else y :: pyListRemove (ys ++ [x]) x) (y :: ys)
        rw [if_neg hy]
        exact ih.cons y

theorem pyListRemove_of_not_mem {xs : List String} {x : String} (hx : x ∉ xs) :
    pyListRemove xs x = xs := by
  induction xs with
  | nil => rfl
  | cons y ys ih =>
      have hy : y ≠ x := fun hxy => hx (hxy ▸ List.mem_cons_self y ys)
      show (if y = x then ys else y :: pyListRemove ys x) = y :: ys
      rw [if_neg hy, ih (fun hmem => hx (List.mem_cons_of_mem y hmem))]

theorem check_packages_append_ok {inv xs : List String}
    (h : _check_packages inv xs = .ok ()) (ys : List String) :
    _check_packages inv (xs ++ ys) = _check_packages inv ys := by
  induction xs with
  | nil => rfl
  | cons p ps ih =>
      have h' : (match parsePackageName p with
            | some n => if n ∈ inv then Except.error (CIError.reservedPackage n)
                        else _check_packages inv ps
            | none => Except.error CIError.invalidPackageSpec) = Except.ok () := h
      rw [List.cons_append]
      show (match parsePackageName p with
            | some n => if n ∈ inv then Except.error (CIError.reservedPackage n)
                        else _check_packages inv (ps ++ ys)
            | none => Except.error CIError.invalidPackageSpec) = _check_packages inv ys
      cases hp : parsePackageName p with
      | none =>
          rw [hp] at h'
          have h'' : (Except.error CIError.invalidPackageSpec : Except CIError Unit) =
              Except.ok () := h'
          cases h''
      | some n =>
          rw [hp] at h'
          have h'' : (if n ∈ inv then Except.error (CIError.reservedPackage n)
                      else _check_packages inv ps) = Except.ok () := h'
          show (if n ∈ inv then Except.error (CIError.reservedPackage n)
                else _check_packages inv (ps ++ ys)) = _check_packages inv ys
          by_cases hn : n ∈ inv
          · rw [if_pos hn] at h''; cases h''
          · rw [if_neg hn] at h'' ⊢
            exact ih h''

theorem check_packages_reserved {inv deps : List String}
    (hall : ∀ d ∈ deps, (parsePackageName d).isSome = true)
    (hex : ∃ d ∈ deps, ∃ n, parsePackageName d = some n ∧ n ∈ inv) :
    ∃ n, n ∈ inv ∧ _check_packages inv deps = .error (.reservedPackage n) := by
  induction deps with
  | nil =>
      obtain ⟨d, hd, -⟩ := hex
      cases hd
  | cons p ps ih =>
      show ∃ n, n ∈ inv ∧ (match parsePackageName p with
            | some n => if n ∈ inv then Except.error (CIError.reservedPackage n)
                        else _check_packages inv ps
            | none => Except.error CIError.invalidPackageSpec) =
          Except.error (CIError.reservedPackage n)
      cases hp : parsePackageName p with
      | none =>
          have hp' := hall p (List.mem_cons_self p ps)
          rw [hp] at hp'
          cases hp'
      | some m =>
          by_cases hm : m ∈ inv
          · refine ⟨m, hm, ?_⟩
            show (if m ∈ inv then Except.error (CIError.reservedPackage m)
                  else _check_packages inv ps) = Except.error (CIError.reservedPackage m)
            rw [if_pos hm]
          · have hex' : ∃ d ∈ ps, ∃ n, parsePackageName d = some n ∧ n ∈ inv := by
              obtain ⟨d, hd, n, hdn, hn⟩ := hex
              rcases List.mem_cons.mp hd with rfl | hd'
              · rw [hp] at hdn
                cases hdn
                exact absurd hn hm
              · exact ⟨d, hd', n, hdn, hn⟩
            obtain ⟨n, hn, hres⟩ :=
              ih (fun d hd => hall d (List.mem_cons_of_mem p hd)) hex'
            refine ⟨n, hn, ?_⟩
            show (if m ∈ inv then Except.error (CIError.reservedPackage m)
                  else _check_packages inv ps) = Except.error (CIError.reservedPackage n)
            rw [if_neg hm]
            exact hres

theorem check_packages_ok_mem {inv deps : List String}
    (h : _check_packages inv deps = .ok ()) :
    ∀ d ∈ deps, ∃ n, parsePackageName d = some n ∧ n ∉ inv := by
  induction deps with
  | nil => intro d hd; cases hd
  | cons p ps ih =>
      have h' : (match parsePackageName p with
            | some n => if n ∈ inv then Except.error (CIError.reservedPackage n)
                        else _check_packages inv ps
            | none => Except.error CIError.invalidPackageSpec) = Except.ok () := h
      intro d hd
      cases hp : parsePackageName p with
      | none =>
          rw [hp] at h'
          have h'' : (Except.error CIError.invalidPackageSpec : Except CIError Unit) =
              Except.ok () := h'
          cases h''
      | some m =>
          rw [hp] at h'
          have h'' : (if m ∈ inv then Except.error (CIError.reservedPackage m)
                      else _check_packages inv ps) = Except.ok () := h'
          by_cases hm : m ∈ inv
          · rw [if_pos hm] at h''; cases h''
          · rw [if_neg hm] at h''
            rcases List.mem_cons.mp hd with rfl | hd'
            · exact ⟨m, hp, hm⟩
            · exact ih h'' d hd'

theorem invalid_packages_python {wc : Option (List String)} {inv : List String}
    (h : _get_invalid_packages wc = .ok inv) : "python" ∈ inv := by
  cases wc with
  | none =>
      cases h
      exact List.mem_cons_self _ _
  | some cs =>
      have h' : (match _check_packages ["python"] cs with
            | Except.error e => Except.error e
            | Except.ok _ => Except.ok ("python" :: cs.filterMap parsePackageName)) =
          Except.ok inv := h
      cases hc : _check_packages ["python"] cs with
      | error e =>
          rw [hc] at h'
          have h'' : (Except.error e : Except CIError (List String)) =
              Except.ok inv := h'
          cases h''
      | ok u =>
          rw [hc] at h'
          have h'' : Except.ok ("python" :: cs.filterMap parsePackageName) =
              Except.ok inv := h'
          cases Except.ok.inj h''
          exact List.mem_cons_self _ _

theorem invalid_packages_constraint_names {cs : List String} {inv : List String}
    (h : _get_invalid_packages (some cs) = .ok inv) :
    ∀ c ∈ cs, ∀ n, parsePackageName c = some n → n ∈ inv := by
  have h' : (match _check_packages ["python"] cs with
        | Except.error e => Except.error e
        | Except.ok _ => Except.ok ("python" :: cs.filterMap parsePackageName)) =
      Except.ok inv := h
  cases hc : _check_packages ["python"] cs with
  | error e =>
      rw [hc] at h'
      have h'' : (Except.error e : Except CIError (List String)) =
          Except.ok inv := h'
      cases h''
  | ok u =>
      rw [hc] at h'
      have h'' : Except.ok ("python" :: cs.filterMap parsePackageName) =
          Except.ok inv := h'
      cases Except.ok.inj h''
      intro c hcmem n hn
      exact List.mem_cons_of_mem _ (List.mem_filterMap.mpr ⟨c, hcmem, hn⟩)

theorem lookupKey_updateKey_eq {d : SpecDict} {k : String} {v : List String}
    (f : List String → List String) (h : lookupKey d k = some v) :
    lookupKey (updateKey d k f) k = some (f v) := by
  induction d with
  | nil => cases h
  | cons kv rest ih =>
      obtain ⟨k', v'⟩ := kv
      have h' : (if k' = k then some v' else lookupKey rest k) = some v := h
      have hu : updateKey ((k', v') :: rest) k f =
          if k' = k then (k', f v') :: rest else (k', v') :: updateKey rest k f := rfl
      by_cases hk : k' = k
      · rw [if_pos hk] at h'
        have hv := Option.some.inj h'
        rw [hu, if_pos hk]
        show (if k' = k then some (f v') else lookupKey rest k) = some (f v)
        rw [if_pos hk, hv]
      · rw [if_neg hk] at h'
        rw [hu, if_neg hk]
        show (if k' = k then some v' else lookupKey (updateKey rest k f) k) = some (f v)
        rw [if_neg hk]
        exact ih h'

theorem lookupKey_updateKey_ne (d : SpecDict) (k : String)
    (f : List String → List String) {k' : String} (h : k' ≠ k) :
    lookupKey (updateKey d k f) k' = lookupKey d k' := by
  induction d with
  | nil => rfl
  | cons kv rest ih =>
      obtain ⟨k₀, v₀⟩ := kv
      have hu : updateKey ((k₀, v₀) :: rest) k f =
          if k₀ = k then (k₀, f v₀) :: rest else (k₀, v₀) :: updateKey rest k f := rfl
      by_cases hk : k₀ = k
      · rw [hu, if_pos hk]
        have hne : k₀ ≠ k' := fun he => h (he ▸ hk)
        show (if k₀ = k' then some (f v₀) else lookupKey rest k') =
            (if k₀ = k' then some v₀ else lookupKey rest k')
        rw [if_neg hne, if_neg hne]
      · rw [hu, if_neg hk]
        show (if k₀ = k' then some v₀ else lookupKey (updateKey rest k f) k') =
            (if k₀ = k' then some v₀ else lookupKey rest k')
        by_cases he : k₀ = k'
        · rw [if_pos he, if_pos he]
        · rw [if_neg he, if_neg he]
          exact ih

theorem updateKey_keys (d : SpecDict) (k : String) (f : List String → List String) :
    (updateKey d k f).map Prod.fst = d.map Prod.fst := by
  induction d with
  | nil => rfl
  | cons kv rest ih =>
      obtain ⟨k₀, v₀⟩ := kv
      have hu : updateKey ((k₀, v₀) :: rest) k f =
          if k₀ = k then (k₀, f v₀) :: rest else (k₀, v₀) :: updateKey rest k f := rfl
      by_cases hk : k₀ = k
      · rw [hu, if_pos hk]
        rfl
      · rw [hu, if_neg hk]
        show k₀ :: (updateKey rest k f).map Prod.fst = k₀ :: rest.map Prod.fst
        rw [ih]

/-- The interpreter pin always parses to the package name `"python"`,
whatever the version numbers are. -/
theorem parse_pythonPin (ver : Nat × Nat) :
    parsePackageName (pythonPin ver) = some "python" := by
  have hd : (pythonPin ver).data =
      'p' :: 'y' :: 't' :: 'h' :: 'o' :: 'n' :: ' ' :: '=' :: '=' ::
        ((toString ver.1).data ++ ('.' :: (toString ver.2).data)) := by
    show ((("python ==" ++ toString ver.1) ++ ".") ++ toString ver.2).data = _
    rw [String.data_append, String.data_append, String.data_append,
        List.append_assoc, List.append_assoc]
    rfl
  unfold parsePackageName
  rw [hd]
  rfl

theorem toHex8_length (n : Nat) : (toHex8 n).length = 8 := rfl

theorem sha256hex_length (msg : List Nat) : (sha256hex msg).length = 64 := by
  show (toHex8 _ ++ toHex8 _ ++ toHex8 _ ++ toHex8 _ ++
        toHex8 _ ++ toHex8 _ ++ toHex8 _ ++ toHex8 _).length = 64
  simp [String.length_append, toHex8_length]

theorem check_env_ok {env : SpecDict} {inv : List String}
    (h : _check_env env inv = .ok ()) :
    ∃ deps, (lookupKey env "channels").isSome = true ∧
      lookupKey env "dependencies" = some deps ∧
      _check_packages inv deps = .ok () := by
  cases hch : lookupKey env "channels" with
  | none =>
      unfold _check_env at h
      rw [hch] at h
      have h' : (Except.error CIError.missingChannels : Except CIError Unit) =
          Except.ok () := h
      cases h'
  | some ch =>
      cases hdep : lookupKey env "dependencies" with
      | none =>
          unfold _check_env at h
          rw [hch, hdep] at h
          have h' : (Except.error CIError.missingDependencies : Except CIError Unit) =
              Except.ok () := h
          cases h'
      | some deps =>
          unfold _check_env at h
          rw [hch, hdep] at h
          exact ⟨deps, rfl, rfl, h⟩

theorem check_env_ok_of_parts {env : SpecDict} {inv : List String} {deps : List String}
    (hch : (lookupKey env "channels").isSome = true)
    (hdep : lookupKey env "dependencies" = some deps)
    (hpk : _check_packages inv deps = .ok ()) :
    _check_env env inv = .ok () := by
  unfold _check_env
  cases hch' : lookupKey env "channels" with
  | none => rw [hch'] at hch; cases hch
  | some ch => rw [hdep]; exact hpk

theorem check_env_error_of_packages {env : SpecDict} {inv : List String}
    {deps : List String} {e : CIError}
    (hch : (lookupKey env "channels").isSome = true)
    (hdep : lookupKey env "dependencies" = some deps)
    (hpk : _check_packages inv deps = .error e) :
    _check_env env inv = .error e := by
  unfold _check_env
  cases hch' : lookupKey env "channels" with
  | none => rw [hch'] at hch; cases hch
  | some ch => rw [hdep]; exact hpk

theorem inject_env_core_error_of_invalid {env : SpecDict} {wc : Option (List String)}
    {ver : Nat × Nat} {paths : List String} {e : CIError}
    (he : _get_invalid_packages wc = .error e) :
    inject_env_core env wc ver paths = ([], env, .error e) := by
  unfold inject_env_core
  rw [he]

theorem inject_env_core_error_of_checkenv {env : SpecDict} {wc : Option (List String)}
    {ver : Nat × Nat} {paths : List String} {inv : List String} {e : CIError}
    (hi : _get_invalid_packages wc = .ok inv)
    (hc : _check_env env inv = .error e) :
    inject_env_core env wc ver paths = ([], env, .error e) := by
  unfold inject_env_core
  rw [hi]
  show (match _check_env env inv with
        | Except.error e => ([], env, Except.error e)
        | Except.ok _ => _) = _
  rw [hc]

theorem inject_env_core_eq_of_valid {env : SpecDict} {wc : Option (List String)}
    {ver : Nat × Nat} {paths : List String} {inv : List String}
    (hi : _get_invalid_packages wc = .ok inv)
    (hc : _check_env env inv = .ok ()) :
    inject_env_core env wc ver paths =
      (if _get_env_name (_insert_constraints env wc ver) ∈ envNames paths then
        ([Cmd.envList], _insert_constraints env wc ver,
          .ok ⟨_get_env_name (_insert_constraints env wc ver), false⟩)
      else
        ([Cmd.envList,
          Cmd.envCreate (_get_env_name (_insert_constraints env wc ver))
            (_insert_constraints env wc ver)],
          _insert_constraints env wc ver,
          .ok ⟨_get_env_name (_insert_constraints env wc ver), true⟩)) := by
  unfold inject_env_core
  rw [hi]
  show (match _check_env env inv with
        | Except.error e => ([], env, Except.error e)
        | Except.ok _ => _) = _
  rw [hc]

theorem inject_env_core_ok_valid {env : SpecDict} {wc : Option (List String)}
    {ver : Nat × Nat} {paths : List String}
    (h : isOkResult (inject_env_core env wc ver paths) = true) :
    ∃ inv deps, _get_invalid_packages wc = .ok inv ∧
      (lookupKey env "channels").isSome = true ∧
      lookupKey env "dependencies" = some deps ∧
      _check_packages inv deps = .ok () := by
  cases hi : _get_invalid_packages wc with
  | error e =>
      rw [inject_env_core_error_of_invalid hi] at h
      exact Bool.noConfusion (show (false : Bool) = true from h)
  | ok inv =>
      cases hc : _check_env env inv with
      | error e =>
          rw [inject_env_core_error_of_checkenv hi hc] at h
          exact Bool.noConfusion (show (false : Bool) = true from h)
      | ok u =>
          cases u
          obtain ⟨deps, h1, h2, h3⟩ := check_env_ok hc
          exact ⟨inv, deps, rfl, h1, h2, h3⟩

/-- `deactivate` leaves the state untouched when the expected `sys.path`
entry is absent and the expected `PATH` substring does not occur: absence is
treated as already satisfied. -/
theorem deactivate_of_absent (h : Handle) (ver : Nat × Nat) (s : ProcState)
    (h1 : syspathInjection h ver ∉ s.sysPath)
    (h2 : ¬ (pathInjection h).data <:+: s.pathVar.data) :
    deactivate h ver s = s := by
  unfold deactivate
  rw [pyListRemove_of_not_mem h1]
  have e2 : removeAllStr s.pathVar (pathInjection h) = s.pathVar := by
    unfold removeAllStr
    rw [removeAll_no_occurrence h2]
  rw [e2]

/-! ## The claims -/

/-- C7: a dependency string is parsed with the grammar `name (constraint)?`:
the name is the maximal nonempty leading run of characters excluding `=`,
`<`, `>` and whitespace, and parsing fails (the malformed-spec error) exactly
when the string is empty or starts with one of the excluded characters. -/
theorem c7_dependency_grammar (s : String) :
    (parsePackageName s = none ↔
      (s.data = [] ∨ ∃ c t, s.data = c :: t ∧ goodChar c = false)) ∧
    (∀ n, parsePackageName s = some n →
      n.data = s.data.takeWhile goodChar ∧ n.data ≠ [] ∧
        ∀ c ∈ n.data, goodChar c = true) ∧
    (∀ c, goodChar c = false ↔
      (c = '=' ∨ c = '<' ∨ c = '>' ∨ isPySpace c = true)) := by
  refine ⟨?_, ?_, ?_⟩
  · unfold parsePackageName
    cases hl : s.data with
    | nil =>
        show (match ([] : List Char).takeWhile goodChar with
              | [] => none
              | cs => some (String.mk cs)) = none ↔ _
        simp
    | cons c t =>
        rw [List.takeWhile_cons]
        by_cases gc : goodChar c
        · rw [if_pos gc]
          show some (String.mk (c :: _)) = none ↔ _
          constructor
          · intro hh; cases hh
          · rintro (hnil | ⟨c', t', heq, hbad⟩)
            · cases hnil
            · cases List.cons.inj heq |>.1
              rw [gc] at hbad
              cases hbad
        · rw [if_neg gc]
          constructor
          · intro _
            exact Or.inr ⟨c, t, rfl, Bool.of_not_eq_true gc⟩
          · intro _
            rfl
  · intro n hn
    unfold parsePackageName at hn
    cases ht : s.data.takeWhile goodChar with
    | nil => rw [ht] at hn; cases hn
    | cons c t =>
        rw [ht] at hn
        have hn' : some (String.mk (c :: t)) = some n := hn
        cases Option.some.inj hn'
        refine ⟨rfl, by simp, ?_⟩
        intro ch hc
        have hc' : ch ∈ s.data.takeWhile goodChar := by rw [ht]; exact hc
        exact List.mem_takeWhile_imp hc'
  · intro c
    unfold goodChar
    constructor
    · intro hfalse
      have hx : (c == '=' || c == '<' || c == '>' || isPySpace c) = true := by
        cases hxx : (c == '=' || c == '<' || c == '>' || isPySpace c) with
        | true => rfl
        | false =>
            rw [hxx] at hfalse
            have hf : (true : Bool) = false := hfalse
            cases hf
      simp only [Bool.or_eq_true, beq_iff_eq] at hx
      rcases hx with ((h1 | h2) | h3) | h4
      · exact Or.inl h1
      · exact Or.inr (Or.inl h2)
      · exact Or.inr (Or.inr (Or.inl h3))
      · exact Or.inr (Or.inr (Or.inr h4))
    · intro hcase
      have hx : (c == '=' || c == '<' || c == '>' || isPySpace c) = true := by
        simp only [Bool.or_eq_true, beq_iff_eq]
        rcases hcase with h1 | h2 | h3 | h4
        · exact Or.inl (Or.inl (Or.inl h1))
        · exact Or.inl (Or.inl (Or.inr h2))
        · exact Or.inl (Or.inr h3)
        · exact Or.inr h4
      rw [hx]
      rfl

/-- C7 witness: the grammar theorem applied at concrete dependency strings.
`""` and `"=x"` have no parseable name; `"foo >=1.0"` parses to `"foo"`. -/
theorem c7_witness :
    parsePackageName "" = none ∧ parsePackageName "=x" = none ∧
    ("foo".data = "foo >=1.0".data.takeWhile goodChar ∧ "foo".data ≠ [] ∧
      ∀ c ∈ "foo".data, goodChar c = true) :=
  ⟨rfl, rfl, (c7_dependency_grammar "foo >=1.0").2.1 "foo" rfl⟩

/-- C9: augmentation appends to the spec's dependency list, in order, the
exact interpreter pin and then each caller constraint; every other key's
value and the key order are unchanged. -/
theorem c9_augmentation (env : SpecDict) (wc : Option (List String))
    (ver : Nat × Nat) (d0 : List String)
    (h : lookupKey env "dependencies" = some d0) :
    lookupKey (_insert_constraints env wc ver) "dependencies" =
      some (d0 ++ pythonPin ver :: wcList wc) ∧
    (∀ k, k ≠ "dependencies" →
      lookupKey (_insert_constraints env wc ver) k = lookupKey env k) ∧
    (_insert_constraints env wc ver).map Prod.fst = env.map Prod.fst := by
  refine ⟨lookupKey_updateKey_eq _ h, ?_, updateKey_keys env "dependencies" _⟩
  intro k hk
  exact lookupKey_updateKey_ne env "dependencies" _ hk

/-- C9 witness: augmenting a concrete two-key spec appends
`"python ==3.12"` and then the one caller constraint, and leaves the
channels entry alone. -/
theorem c9_witness :
    lookupKey [("channels", ["conda-forge"]), ("dependencies", ["numpy"])]
      "dependencies" = some ["numpy"] ∧
    lookupKey (_insert_constraints
        [("channels", ["conda-forge"]), ("dependencies", ["numpy"])]
        (some ["requests =2.31"]) (3, 12)) "dependencies" =
      some (["numpy"] ++ pythonPin (3, 12) :: wcList (some ["requests =2.31"])) ∧
    lookupKey (_insert_constraints
        [("channels", ["conda-forge"]), ("dependencies", ["numpy"])]
        (some ["requests =2.31"]) (3, 12)) "channels" =
      lookupKey [("channels", ["conda-forge"]), ("dependencies", ["numpy"])]
        "channels" :=
  ⟨rfl,
   (c9_augmentation [("channels", ["conda-forge"]), ("dependencies", ["numpy"])]
      (some ["requests =2.31"]) (3, 12) ["numpy"] rfl).1,
   (c9_augmentation [("channels", ["conda-forge"]), ("dependencies", ["numpy"])]
      (some ["requests =2.31"]) (3, 12) ["numpy"] rfl).2.1 "channels" (by decide)⟩

/-- C8: whenever `inject_env` fails validation (missing key, malformed
dependency, or reserved package — the only errors the embedded run can
raise), no package-manager subprocess has been started and the caller's
mapping is returned unmodified (no pin or constraints appended). -/
theorem c8_validation_before_effects (env : SpecDict) (wc : Option (List String))
    (ver : Nat × Nat) (paths : List String) (e : CIError)
    (h : (inject_env_core env wc ver paths).2.2 = .error e) :
    (inject_env_core env wc ver paths).1 = [] ∧
    (inject_env_core env wc ver paths).2.1 = env := by
  cases hi : _get_invalid_packages wc with
  | error e' =>
      rw [inject_env_core_error_of_invalid hi]
      exact ⟨rfl, rfl⟩
  | ok inv =>
      cases hc : _check_env env inv with
      | error e' =>
          rw [inject_env_core_error_of_checkenv hi hc]
          exact ⟨rfl, rfl⟩
      | ok u =>
          cases u
          exfalso
          rw [inject_env_core_eq_of_valid hi hc] at h
          by_cases hmem :
            _get_env_name (_insert_constraints env wc ver) ∈ envNames paths
          · rw [if_pos hmem] at h
            have h' : (Except.ok
                (⟨_get_env_name (_insert_constraints env wc ver), false⟩ :
                  InjectOutcome) : Except CIError InjectOutcome) =
                Except.error e := h
            cases h'
          · rw [if_neg hmem] at h
            have h' : (Except.ok
                (⟨_get_env_name (_insert_constraints env wc ver), true⟩ :
                  InjectOutcome) : Except CIError InjectOutcome) =
                Except.error e := h
            cases h'

/-- C8 witness: a spec without a `channels` key fails validation with the
missing-field error, runs no subprocess command and is left unmodified. -/
theorem c8_witness :
    (inject_env_core [("dependencies", ["numpy"])] none (3, 12) []).2.2 =
      .error .missingChannels ∧
    (inject_env_core [("dependencies", ["numpy"])] none (3, 12) []).1 = [] ∧
    (inject_env_core [("dependencies", ["numpy"])] none (3, 12) []).2.1 =
      [("dependencies", ["numpy"])] :=
  ⟨rfl,
   (c8_validation_before_effects [("dependencies", ["numpy"])] none (3, 12) []
      .missingChannels rfl).1,
   (c8_validation_before_effects [("dependencies", ["numpy"])] none (3, 12) []
      .missingChannels rfl).2⟩

/-- C5 fails on the code: `remove` runs the removal subprocess with
`check=True`, so on a non-zero exit the error propagates before the
`self.deactivate()` line — the path injection is not cleaned up. Here the
`sys.path` entry is still present after a failed removal, though `deactivate`
would have removed it. -/
theorem c5_counterexample :
    (removeEnv ⟨"e", "/x"⟩ (3, 12) false
        ⟨[syspathInjection ⟨"e", "/x"⟩ (3, 12)], "", ["e"]⟩).2.1 =
      .error .environmentRemovalFailed ∧
    syspathInjection ⟨"e", "/x"⟩ (3, 12) ∈
      (removeEnv ⟨"e", "/x"⟩ (3, 12) false
        ⟨[syspathInjection ⟨"e", "/x"⟩ (3, 12)], "", ["e"]⟩).2.2.sysPath ∧
    syspathInjection ⟨"e", "/x"⟩ (3, 12) ∉
      (deactivate ⟨"e", "/x"⟩ (3, 12)
        ⟨[syspathInjection ⟨"e", "/x"⟩ (3, 12)], "", ["e"]⟩).sysPath := by
  exact ⟨rfl, by decide, by decide⟩

/-- C5 amended: `remove` always invokes the removal command for the
environment's name and fails with the removal error exactly when the
subprocess exits non-zero; `deactivate` runs only after a successful
removal — on failure the error propagates first and the state is left
untouched. -/
theorem c5_remove_behavior (h : Handle) (ver : Nat × Nat) (exitOk : Bool)
    (s : ProcState) :
    (removeEnv h ver exitOk s).1 = [Cmd.envRemove h.name] ∧
    ((removeEnv h ver exitOk s).2.1 = .error .environmentRemovalFailed ↔
      exitOk = false) ∧
    (exitOk = false → (removeEnv h ver exitOk s).2.2 = s) ∧
    (exitOk = true → (removeEnv h ver exitOk s).2.2 =
      deactivate h ver { s with envsOnDisk := s.envsOnDisk.erase h.name }) := by
  cases exitOk with
  | false =>
      refine ⟨rfl, ⟨fun _ => rfl, fun _ => rfl⟩, fun _ => rfl,
        fun hc => Bool.noConfusion hc⟩
  | true =>
      refine ⟨rfl, ⟨fun hh => ?_, fun hh => Bool.noConfusion hh⟩,
        fun hc => Bool.noConfusion hc, fun _ => rfl⟩
      have hh' : (Except.ok () : Except CIError Unit) =
          Except.error CIError.environmentRemovalFailed := hh
      cases hh'

/-- C5 witness: the amended behavior at a concrete handle and state, for a
successful and for a failed removal. -/
theorem c5_witness :
    (removeEnv ⟨"e", "/x"⟩ (3, 12) true ⟨[], "", ["e"]⟩).2.2 =
      deactivate ⟨"e", "/x"⟩ (3, 12)
        { ProcState.mk [] "" ["e"] with envsOnDisk := (["e"] : List String).erase "e" } ∧
    (removeEnv ⟨"e", "/x"⟩ (3, 12) false ⟨[], "", ["e"]⟩).2.2 = ⟨[], "", ["e"]⟩ ∧
    (removeEnv ⟨"e", "/x"⟩ (3, 12) true ⟨[], "", ["e"]⟩).1 = [Cmd.envRemove "e"] :=
  ⟨(c5_remove_behavior ⟨"e", "/x"⟩ (3, 12) true ⟨[], "", ["e"]⟩).2.2.2 rfl,
   (c5_remove_behavior ⟨"e", "/x"⟩ (3, 12) false ⟨[], "", ["e"]⟩).2.2.1 rfl,
   (c5_remove_behavior ⟨"e", "/x"⟩ (3, 12) true ⟨[], "", ["e"]⟩).1⟩

/-- C6 fails on the code: `deactivate` keeps no `active` flag; when the
expected `sys.path` entry is present twice (here: it was already present
before injection appended a second copy), a second deactivation removes the
second copy — a further mutation, not a no-op. -/
theorem c6_counterexample :
    deactivate ⟨"e", "/x"⟩ (3, 12)
        (deactivate ⟨"e", "/x"⟩ (3, 12)
          ⟨[syspathInjection ⟨"e", "/x"⟩ (3, 12),
            syspathInjection ⟨"e", "/x"⟩ (3, 12)], "", []⟩) ≠
      deactivate ⟨"e", "/x"⟩ (3, 12)
        ⟨[syspathInjection ⟨"e", "/x"⟩ (3, 12),
          syspathInjection ⟨"e", "/x"⟩ (3, 12)], "", []⟩ := by
  decide

/-- C6 amended: `deactivate` never raises, and treats absence of the
expected `sys.path` entry or `PATH` substring as already satisfied; hence a
second deactivation is a no-op whenever the first one left no occurrence of
either behind (in particular whenever each was present at most once), but it
can mutate further when occurrences remain. -/
theorem c6_deactivate_idempotent (h : Handle) (ver : Nat × Nat) (s : ProcState)
    (h1 : syspathInjection h ver ∉ (deactivate h ver s).sysPath)
    (h2 : ¬ (pathInjection h).data <:+: (deactivate h ver s).pathVar.data) :
    deactivate h ver (deactivate h ver s) = deactivate h ver s :=
  deactivate_of_absent h ver _ h1 h2

/-- C6 witness: after deactivating a concrete injected state once, the
expected entries are gone and the second deactivation is a no-op. -/
theorem c6_witness :
    deactivate ⟨"e", "/x"⟩ (3, 12)
        (deactivate ⟨"e", "/x"⟩ (3, 12)
          ⟨[syspathInjection ⟨"e", "/x"⟩ (3, 12)], ":/x/bin", []⟩) =
      deactivate ⟨"e", "/x"⟩ (3, 12)
        ⟨[syspathInjection ⟨"e", "/x"⟩ (3, 12)], ":/x/bin", []⟩ :=
  c6_deactivate_idempotent ⟨"e", "/x"⟩ (3, 12)
    ⟨[syspathInjection ⟨"e", "/x"⟩ (3, 12)], ":/x/bin", []⟩
    (by decide) (by decide)

/-- C2 fails on the code: when the pre-injection `PATH` already contains the
injection substring `":<path>/bin"`, `deactivate`'s `str.replace(..., "")`
removes that pre-existing occurrence too, so the entry set of `PATH` shrinks
below its pre-injection value. Here `"/x/bin"` is an entry of the original
`PATH` but not of the restored one. -/
theorem c2_counterexample :
    "/x/bin" ∈ pathEntries "/usr:/x/bin" ∧
    "/x/bin" ∉ pathEntries
      (scopeExit ⟨"e", "/x"⟩ (3, 12)
        (_inject_path ⟨"e", "/x"⟩ (3, 12) ⟨[], "/usr:/x/bin", []⟩)).pathVar := by
  constructor <;> decide

/-- C2 amended: one injection followed by the unconditional scope-exit
deactivation restores `PATH` exactly and `sys.path` as a multiset (hence as a
set), and never touches the on-disk environments — provided the environment
path contains no `':'` and the injection substring does not already occur in
the pre-injection `PATH`. -/
theorem c2_inject_deactivate_restores (h : Handle) (ver : Nat × Nat)
    (s : ProcState)
    (hc : ':' ∉ h.envPath.data)
    (hi : ¬ (pathInjection h).data <:+: s.pathVar.data) :
    (scopeExit h ver (_inject_path h ver s)).pathVar = s.pathVar ∧
    List.Perm (scopeExit h ver (_inject_path h ver s)).sysPath s.sysPath ∧
    (scopeExit h ver (_inject_path h ver s)).envsOnDisk = s.envsOnDisk := by
  refine ⟨?_, ?_, rfl⟩
  · show removeAllStr (s.pathVar ++ pathInjection h) (pathInjection h) = s.pathVar
    unfold removeAllStr
    rw [String.data_append]
    have hne : (pathInjection h).data ≠ [] := by
      rw [pathInjection_data]
      simp
    rw [removeAll_append_self hne (pathInjection_no_overlap hc) hi]
  · show List.Perm
      (pyListRemove (s.sysPath ++ [syspathInjection h ver]) (syspathInjection h ver))
      s.sysPath
    exact pyListRemove_append_singleton_perm _ _

/-- C2 witness: the amended restoration at a concrete handle and state. -/
theorem c2_witness :
    (scopeExit ⟨"e", "/x"⟩ (3, 12)
      (_inject_path ⟨"e", "/x"⟩ (3, 12) ⟨["/lib"], "/usr", ["e"]⟩)).pathVar = "/usr" ∧
    List.Perm (scopeExit ⟨"e", "/x"⟩ (3, 12)
      (_inject_path ⟨"e", "/x"⟩ (3, 12) ⟨["/lib"], "/usr", ["e"]⟩)).sysPath ["/lib"] ∧
    (scopeExit ⟨"e", "/x"⟩ (3, 12)
      (_inject_path ⟨"e", "/x"⟩ (3, 12) ⟨["/lib"], "/usr", ["e"]⟩)).envsOnDisk = ["e"] :=
  c2_inject_deactivate_restores ⟨"e", "/x"⟩ (3, 12) ⟨["/lib"], "/usr", ["e"]⟩
    (by decide) (by decide)

/-- C3: for every spec that passes validation, the run's mapping is the
augmented spec, its name is the fingerprint of the augmented spec, and the
creation command — carrying the augmented spec and that name — is issued
exactly when the name is absent from the listing's names. -/
theorem c3_create_iff_absent (env : SpecDict) (wc : Option (List String))
    (ver : Nat × Nat) (paths : List String)
    (h : isOkResult (inject_env_core env wc ver paths) = true) :
    (inject_env_core env wc ver paths).2.1 = _insert_constraints env wc ver ∧
    envNameOf (inject_env_core env wc ver paths) =
      _get_env_name (_insert_constraints env wc ver) ∧
    (createdOf (inject_env_core env wc ver paths) = true ↔
      envNameOf (inject_env_core env wc ver paths) ∉ envNames paths) ∧
    (envNameOf (inject_env_core env wc ver paths) ∈ envNames paths →
      (inject_env_core env wc ver paths).1 = [Cmd.envList]) ∧
    (envNameOf (inject_env_core env wc ver paths) ∉ envNames paths →
      (inject_env_core env wc ver paths).1 =
        [Cmd.envList,
         Cmd.envCreate (envNameOf (inject_env_core env wc ver paths))
           ((inject_env_core env wc ver paths).2.1)]) := by
  obtain ⟨inv, deps, hi, hch, hdep, hpk⟩ := inject_env_core_ok_valid h
  have hv : _check_env env inv = .ok () := check_env_ok_of_parts hch hdep hpk
  have he := @inject_env_core_eq_of_valid env wc ver paths inv hi hv
  by_cases hmem : _get_env_name (_insert_constraints env wc ver) ∈ envNames paths
  · rw [he, if_pos hmem]
    exact ⟨rfl, rfl,
      iff_of_false (fun hh => Bool.noConfusion (show (false : Bool) = true from hh))
        (not_not_intro hmem),
      fun _ => rfl,
      fun hn => absurd hmem hn⟩
  · rw [he, if_neg hmem]
    exact ⟨rfl, rfl, iff_of_true rfl hmem,
      fun hmem' => absurd hmem' hmem,
      fun _ => rfl⟩

set_option maxRecDepth 400000 in
/-- C3 witness: a concrete valid spec whose derived name is not among the
listed environments; the creation flag is set exactly because the name is
absent. -/
theorem c3_witness :
    isOkResult (inject_env_core
      [("channels", ["conda-forge"]), ("dependencies", ["humanfriendly =10.0"])]
      none (3, 12) ["/envs/base"]) = true ∧
    (createdOf (inject_env_core
        [("channels", ["conda-forge"]), ("dependencies", ["humanfriendly =10.0"])]
        none (3, 12) ["/envs/base"]) = true ↔
      envNameOf (inject_env_core
        [("channels", ["conda-forge"]), ("dependencies", ["humanfriendly =10.0"])]
        none (3, 12) ["/envs/base"]) ∉ envNames ["/envs/base"]) :=
  ⟨rfl,
   (c3_create_iff_absent
      [("channels", ["conda-forge"]), ("dependencies", ["humanfriendly =10.0"])]
      none (3, 12) ["/envs/base"] rfl).2.2.1⟩

/-- C4 fails as stated: a dependency list can contain a reserved package name
and still fail with the malformed-spec error instead, when an earlier
dependency has no parseable name. Here `"python"` parses to `"python"`,
which is in the reserved set for no extra constraints, yet validation
reports the malformed `"="` first. -/
theorem c4_counterexample :
    parsePackageName "python" = some "python" ∧
    _get_invalid_packages none = .ok ["python"] ∧
    "python" ∈ ["python"] ∧
    "python" ∈ ["=", "python"] ∧
    (inject_env_core [("channels", []), ("dependencies", ["=", "python"])]
        none (3, 12) []).2.2 = .error .invalidPackageSpec := by
  exact ⟨rfl, rfl, by decide, by decide, rfl⟩

/-- C4 amended: the reserved set always contains `"python"` and the parsed
name of every extra constraint, and whenever every dependency parses and some
dependency's parsed name is in the reserved set, injection fails before any
subprocess with the reserved-package error (in particular when the same name
is supplied both as a dependency and as an extra constraint). -/
theorem c4_reserved_detection (env : SpecDict) (wc : Option (List String))
    (ver : Nat × Nat) (paths : List String) (inv : List String)
    (deps : List String)
    (hinv : _get_invalid_packages wc = .ok inv)
    (hch : (lookupKey env "channels").isSome = true)
    (hdeps : lookupKey env "dependencies" = some deps)
    (hall : ∀ d ∈ deps, (parsePackageName d).isSome = true)
    (hres : ∃ d ∈ deps, ∃ n, parsePackageName d = some n ∧ n ∈ inv) :
    ("python" ∈ inv ∧
      ∀ cs, wc = some cs → ∀ c ∈ cs, ∀ n, parsePackageName c = some n → n ∈ inv) ∧
    ∃ n, n ∈ inv ∧
      inject_env_core env wc ver paths = ([], env, .error (.reservedPackage n)) := by
  obtain ⟨n, hn, hpk⟩ := check_packages_reserved hall hres
  refine ⟨⟨invalid_packages_python hinv, ?_⟩, n, hn, ?_⟩
  · rintro cs rfl
    exact invalid_packages_constraint_names hinv
  · exact inject_env_core_error_of_checkenv hinv
      (check_env_error_of_packages hch hdeps hpk)

/-- C4 witness: supplying `"requests"` both as a dependency and as an extra
constraint makes it reserved and fails the run with the reserved-package
error. -/
theorem c4_witness :
    _get_invalid_packages (some ["requests =2.31"]) = .ok ["python", "requests"] ∧
    ∃ n, n ∈ ["python", "requests"] ∧
      inject_env_core
          [("channels", ["conda-forge"]), ("dependencies", ["requests =2.31"])]
          (some ["requests =2.31"]) (3, 12) [] =
        ([], [("channels", ["conda-forge"]), ("dependencies", ["requests =2.31"])],
         .error (.reservedPackage n)) :=
  ⟨rfl,
   (c4_reserved_detection
      [("channels", ["conda-forge"]), ("dependencies", ["requests =2.31"])]
      (some ["requests =2.31"]) (3, 12) [] ["python", "requests"]
      ["requests =2.31"] rfl rfl rfl (by decide)
      ⟨"requests =2.31", by decide, "requests", rfl, by decide⟩).2⟩

/-- C10: `inject_env` mutates the caller's mapping in place — after a
successful run the mapping's dependency list has the pin and constraints
appended — and a second run on that same mapping fails validation with the
reserved-package error for `"python"`, before any subprocess. -/
theorem c10_mutation_breaks_reinjection (env : SpecDict)
    (wc : Option (List String)) (ver : Nat × Nat) (paths paths2 : List String)
    (h : isOkResult (inject_env_core env wc ver paths) = true) :
    (∃ d0, lookupKey env "dependencies" = some d0 ∧
      lookupKey ((inject_env_core env wc ver paths).2.1) "dependencies" =
        some (d0 ++ pythonPin ver :: wcList wc)) ∧
    inject_env_core ((inject_env_core env wc ver paths).2.1) wc ver paths2 =
      ([], (inject_env_core env wc ver paths).2.1,
       .error (.reservedPackage "python")) := by
  obtain ⟨inv, deps, hi, hch, hdep, hpk⟩ := inject_env_core_ok_valid h
  have hv : _check_env env inv = .ok () := check_env_ok_of_parts hch hdep hpk
  have he := @inject_env_core_eq_of_valid env wc ver paths inv hi hv
  have henvA : (inject_env_core env wc ver paths).2.1 =
      _insert_constraints env wc ver := by
    rw [he]
    by_cases hmem : _get_env_name (_insert_constraints env wc ver) ∈ envNames paths
    · rw [if_pos hmem]
    · rw [if_neg hmem]
  rw [henvA]
  have hdepA : lookupKey (_insert_constraints env wc ver) "dependencies" =
      some (deps ++ pythonPin ver :: wcList wc) := lookupKey_updateKey_eq _ hdep
  refine ⟨⟨deps, hdep, hdepA⟩, ?_⟩
  have hchA : (lookupKey (_insert_constraints env wc ver) "channels").isSome = true := by
    unfold _insert_constraints
    rw [lookupKey_updateKey_ne env "dependencies" _ (by decide)]
    exact hch
  have hpkA : _check_packages inv (deps ++ pythonPin ver :: wcList wc) =
      .error (.reservedPackage "python") := by
    rw [check_packages_append_ok hpk]
    show (match parsePackageName (pythonPin ver) with
          | some n => if n ∈ inv then Except.error (CIError.reservedPackage n)
                      else _check_packages inv (wcList wc)
          | none => Except.error CIError.invalidPackageSpec) = _
    rw [parse_pythonPin]
    show (if "python" ∈ inv then Except.error (CIError.reservedPackage "python")
          else _check_packages inv (wcList wc)) = _
    rw [if_pos (invalid_packages_python hi)]
  exact inject_env_core_error_of_checkenv hi
    (check_env_error_of_packages hchA hdepA hpkA)

set_option maxRecDepth 400000 in
/-- C10 witness: a concrete valid spec is mutated by the first run and the
second run on the returned mapping fails with the reserved-package error for
`"python"`. -/
theorem c10_witness :
    isOkResult (inject_env_core
      [("channels", ["conda-forge"]), ("dependencies", ["humanfriendly =10.0"])]
      none (3, 12) []) = true ∧
    inject_env_core ((inject_env_core
        [("channels", ["conda-forge"]), ("dependencies", ["humanfriendly =10.0"])]
        none (3, 12) []).2.1) none (3, 12) [] =
      ([], (inject_env_core
        [("channels", ["conda-forge"]), ("dependencies", ["humanfriendly =10.0"])]
        none (3, 12) []).2.1,
       .error (.reservedPackage "python")) :=
  ⟨rfl,
   (c10_mutation_breaks_reinjection
      [("channels", ["conda-forge"]), ("dependencies", ["humanfriendly =10.0"])]
      none (3, 12) [] [] rfl).2⟩

set_option maxRecDepth 1000000 in
/-- C1 fails as stated: the serialization `json.dumps(env)` keeps the dict's
insertion order (`sort_keys` is not used), so two specs that are identical as
mappings but list their keys in different orders hash to different names.
Here both dicts map `"channels"` to `["c"]` and `"dependencies"` to `["d"]`
and have the same key set, yet the derived names differ. -/
theorem c1_counterexample :
    lookupKey [("channels", ["c"]), ("dependencies", ["d"])] "channels" =
      lookupKey [("dependencies", ["d"]), ("channels", ["c"])] "channels" ∧
    lookupKey [("channels", ["c"]), ("dependencies", ["d"])] "dependencies" =
      lookupKey [("dependencies", ["d"]), ("channels", ["c"])] "dependencies" ∧
    List.Perm ([("channels", ["c"]), ("dependencies", ["d"])].map Prod.fst)
      ([("dependencies", ["d"]), ("channels", ["c"])].map Prod.fst) ∧
    _get_env_name [("channels", ["c"]), ("dependencies", ["d"])] ≠
      _get_env_name [("dependencies", ["d"]), ("channels", ["c"])] := by
  exact ⟨rfl, rfl, by decide, by decide⟩

/-- C1 amended: the derived name is always the fixed prefix
`"conda-inject-"`, a 64-character digest (the hex SHA-256 of the UTF-8 bytes
of the JSON serialization of the augmented spec), and the suffix `"_"`; the
derivation is deterministic for specs with the same serialization — i.e.
the same content in the same key insertion order — while key insertion
order does, in general, change the name. -/
theorem c1_env_name (e1 e2 : SpecDict) :
    (∃ d, _get_env_name e1 = "conda-inject-" ++ d ++ "_" ∧ d.length = 64 ∧
      d = sha256hex (utf8 (jsonDumps e1))) ∧
    (jsonDumps e1 = jsonDumps e2 → _get_env_name e1 = _get_env_name e2) := by
  refine ⟨⟨sha256hex (utf8 (jsonDumps e1)), rfl, sha256hex_length _, rfl⟩, ?_⟩
  intro hj
  unfold _get_env_name
  rw [hj]

set_option maxRecDepth 1000000 in
/-- C1 witness: the name shape and the determinism implication at a concrete
spec. -/
theorem c1_witness :
    jsonDumps [("channels", ["conda-forge"]), ("dependencies", ["humanfriendly =10.0"])] =
      jsonDumps [("channels", ["conda-forge"]), ("dependencies", ["humanfriendly =10.0"])] ∧
    _get_env_name [("channels", ["conda-forge"]), ("dependencies", ["humanfriendly =10.0"])] =
      _get_env_name [("channels", ["conda-forge"]), ("dependencies", ["humanfriendly =10.0"])] :=
  ⟨rfl,
   (c1_env_name [("channels", ["conda-forge"]), ("dependencies", ["humanfriendly =10.0"])]
      [("channels", ["conda-forge"]), ("dependencies", ["humanfriendly =10.0"])]).2 rfl⟩

end CondaInject
